import Mathlib

/-!
Shallow embedding of the quantitative analytics engine in `src/Analytics.ts`
(class `Analytics`), together with proofs about its behaviour.

Modelling conventions:
* JS `number` values are modelled as rationals (`ℚ`).  The transcendental
  primitives of JS `Math` that the engine calls (`exp`, `log`, `sqrt`, `cos`,
  and the constant `PI`) are injected as an explicit `RealOps` record, so every
  definition stays computable and the theorems hold for any interpretation of
  those primitives.
* `Math.random()` is modelled as an explicit stream `rand : ℕ → ℚ` consumed at
  increasing indices, exactly in the order the source draws from the global
  generator.
* JS exceptions (`throw new Error(msg)`) are modelled by `Except String`,
  carrying the exact message of the source.
* JS division is total on floats (`x / 0` is `NaN` or `±Infinity`); `ℚ`
  division yields `0` instead.  The one place in scope where a zero denominator
  is reachable (the per-regime sample standard deviation in `analyzeRegime`)
  uses `jsDiv`, which returns `none` for the non-finite JS result.
-/

set_option allowUnsafeReducibility true in
attribute [semireducible] Rat.add Rat.sub Rat.mul Rat.inv Rat.ofScientific

/-- Interpretation of the JS `Math` transcendental primitives used by
`src/Analytics.ts`: `Math.exp`, `Math.log`, `Math.sqrt`, `Math.cos` and the
constant `Math.PI`. -/
structure RealOps where
  exp : ℚ → ℚ
  log : ℚ → ℚ
  sqrt : ℚ → ℚ
  cos : ℚ → ℚ
  pi : ℚ

/-- `PricePoint` from `src/types.ts`.  Only `close` is ever read by the
analytics engine; the date is modelled as a natural tick and `open` is renamed
`openP` (Lean keyword). -/
structure PricePoint where
  date : ℕ
  openP : ℚ
  high : ℚ
  low : ℚ
  close : ℚ
  volume : ℚ
deriving Repr, DecidableEq

/-- `Analytics.MIN_VARIANCE = 1e-8`. -/
def MIN_VARIANCE : ℚ := 1 / 100000000

/-- `Analytics.MAX_VARIANCE = 1e4`. -/
def MAX_VARIANCE : ℚ := 10000

/-- `Analytics.MIN_PRICE = 0.01`. -/
def MIN_PRICE : ℚ := 1 / 100

/-- `AnalyticsParams` from `src/types.ts`.  The two path counters are loop
bounds in the source, hence naturals here. -/
structure AnalyticsParams where
  alpha : ℚ
  beta : ℚ
  theta : ℚ
  switchProb : ℚ
  numPaths : ℕ
  numSteps : ℕ
deriving Repr, DecidableEq

/-- `Analytics.validateParams`, with the source's check order and messages. -/
def validateParams (params : AnalyticsParams) : Except String Unit :=
  if params.alpha < 0 ∨ 1 < params.alpha then
    .error "Alpha must be between 0 and 1"
  else if params.beta < 0 ∨ 1 < params.beta then
    .error "Beta must be between 0 and 1"
  else if 1 ≤ params.alpha + params.beta then
    .error "Alpha + Beta must be less than 1 for GARCH stability"
  else if params.theta < 0 ∨ 1 < params.theta then
    .error "Theta must be between 0 and 1"
  else if params.switchProb < 0 ∨ 1 < params.switchProb then
    .error "Switch probability must be between 0 and 1"
  else if params.numPaths < 100 ∨ 10000 < params.numPaths then
    .error "Number of paths must be between 100 and 10000"
  else if params.numSteps < 10 ∨ 1000 < params.numSteps then
    .error "Number of steps must be between 10 and 1000"
  else .ok ()

/-- Loop body of `Analytics.calculateReturns`: `prev` is `prices[i-1].close`;
the source checks the previous close only, then pushes
`Math.log(prices[i].close / prices[i-1].close)`. -/
def calculateReturnsAux (R : RealOps) : ℚ → List PricePoint → Except String (List ℚ)
  | _, [] => .ok []
  | prev, p :: rest =>
    if prev ≤ 0 then .error "Invalid price data: non-positive close price"
    else
      match calculateReturnsAux R p.close rest with
      | .error e => .error e
      | .ok rs => .ok (R.log (p.close / prev) :: rs)

/-- `Analytics.calculateReturns`. -/
def calculateReturns (R : RealOps) (prices : List PricePoint) : Except String (List ℚ) :=
  match prices with
  | p :: q :: rest => calculateReturnsAux R p.close (q :: rest)
  | _ => .error "Need at least 2 price points to calculate returns"

/-- GARCH(1,1) recursion of `Analytics.calculateGARCHVolatility` (the loop for
`t = 1 .. n-1`): consumes `returns[t-1]` and the previous volatility. -/
def garchRecursion (R : RealOps) (omega alpha beta : ℚ) : List ℚ → ℚ → List ℚ
  | [], _ => []
  | r :: rest, prevVol =>
    let variance := omega + alpha * r ^ 2 + beta * prevVol ^ 2
    let boundedVariance := max (min variance MAX_VARIANCE) MIN_VARIANCE
    let vol := R.sqrt boundedVariance
    vol :: garchRecursion R omega alpha beta rest vol

/-- `Analytics.calculateGARCHVolatility`. -/
def calculateGARCHVolatility (R : RealOps) (returns : List ℚ) (alpha beta : ℚ) :
    Except String (List ℚ) :=
  if returns.length = 0 then .error "No returns data provided"
  else if alpha < 0 ∨ beta < 0 ∨ 1 ≤ alpha + beta then
    .error "Invalid GARCH parameters: alpha + beta must be < 1"
  else if returns.length = 1 then
    .ok [R.sqrt (max ((returns.headD 0) ^ 2) MIN_VARIANCE)]
  else
    let n : ℚ := returns.length
    let meanReturn := returns.sum / n
    let sampleVar := (returns.map (fun r => (r - meanReturn) ^ 2)).sum / (n - 1)
    let adjustedSampleVar := max sampleVar MIN_VARIANCE
    let omega := adjustedSampleVar * (1 - alpha - beta)
    let vol0 := R.sqrt adjustedSampleVar
    .ok (vol0 :: garchRecursion R omega alpha beta returns.dropLast vol0)

/-- JS floating division at the one reachable zero-denominator spot: `none`
models the non-finite result (`NaN`, here always via `0/0`) that JS produces
when the denominator is `0`. -/
def jsDiv (a b : ℚ) : Option ℚ := if b = 0 then none else some (a / b)

/-- One entry of `AnalyticsResult.histogram` from `src/types.ts`. -/
structure HistogramBin where
  bin : ℚ
  count : ℕ
deriving Repr, DecidableEq

/-- `AnalyticsResult.probabilities` from `src/types.ts`. -/
structure Probabilities where
  upside20 : ℚ
  downside10 : ℚ
deriving Repr, DecidableEq

/-- `AnalyticsResult` from `src/types.ts`.  The percentile object keyed by
`p5 .. p95` is modelled as an association list from level to value. -/
structure AnalyticsResult where
  paths : List (List ℚ)
  probabilities : Probabilities
  histogram : List HistogramBin
  percentiles : List (ℕ × ℚ)
  var95 : ℚ
  var99 : ℚ
  expectedShortfall95 : ℚ
  expectedShortfall99 : ℚ
  currentVolatility : ℚ
  trend : ℚ
  drift : ℚ
deriving Repr, DecidableEq

/-- `paths.map(path => path[path.length - 1])` in `calculateStatistics` and
`runStressTest`. -/
def finalPricesOf (paths : List (List ℚ)) : List ℚ :=
  paths.map (fun path => path.getD (path.length - 1) 0)

/-- `[...finalPrices].sort((a, b) => a - b)`: the terminal prices in ascending
order (JS guarantees only the sorted result; insertion sort keeps the
definition kernel-computable). -/
def sortedTerminal (paths : List (List ℚ)) : List ℚ :=
  (finalPricesOf paths).insertionSort (· ≤ ·)

/-- `sortedPrices[0]` in `calculateStatistics`. -/
def histMin (paths : List (List ℚ)) : ℚ := (sortedTerminal paths).getD 0 0

/-- `sortedPrices[sortedPrices.length - 1]` in `calculateStatistics`. -/
def histMax (paths : List (List ℚ)) : ℚ :=
  (sortedTerminal paths).getD ((sortedTerminal paths).length - 1) 0

/-- `binSize = (maxPrice - minPrice) / numBins` with `numBins = 50`. -/
def binSizeOf (paths : List (List ℚ)) : ℚ := (histMax paths - histMin paths) / 50

/-- `Math.min(Math.floor((price - minPrice) / binSize), numBins - 1)`.  On the
reachable inputs `price ≥ minPrice` and `binSize > 0`, so the floor is never
negative and `Int.toNat` is exact. -/
def binIndexOf (minPrice binSize price : ℚ) : ℕ :=
  min (((price - minPrice) / binSize).floor.toNat) 49

/-- `histogram[i].count++`: increment the count of bin `i`, leaving the list
unchanged when `i` is out of range. -/
def bumpBin : List HistogramBin → ℕ → List HistogramBin
  | [], _ => []
  | b :: bs, 0 => ⟨b.bin, b.count + 1⟩ :: bs
  | b :: bs, i + 1 => b :: bumpBin bs i

/-- The percentile levels `[5, 10, 25, 50, 75, 90, 95]` of
`calculateStatistics`. -/
def percentileLevels : List ℕ := [5, 10, 25, 50, 75, 90, 95]

/-- `Analytics.calculateStatistics` (private helper of
`runMonteCarloSimulation`). -/
def calculateStatistics (paths : List (List ℚ)) (initialPrice : ℚ) : AnalyticsResult :=
  let numPaths := paths.length
  let finalPrices := finalPricesOf paths
  let upside20Count := (finalPrices.filter (fun price => decide (initialPrice * 1.2 ≤ price))).length
  let downside10Count := (finalPrices.filter (fun price => decide (price ≤ initialPrice * 0.9))).length
  let probabilities : Probabilities :=
    ⟨(upside20Count : ℚ) / (numPaths : ℚ), (downside10Count : ℚ) / (numPaths : ℚ)⟩
  let sortedPrices := sortedTerminal paths
  let minPrice := histMin paths
  let binSize := binSizeOf paths
  let histogram0 := (List.range 50).map (fun (i : ℕ) => HistogramBin.mk (minPrice + (i : ℚ) * binSize) 0)
  let histogram :=
    finalPrices.foldl (fun h price => bumpBin h (binIndexOf minPrice binSize price)) histogram0
  let percentiles : List (ℕ × ℚ) := percentileLevels.map (fun p =>
    (p, sortedPrices.getD (((p : ℚ) / 100 * ((numPaths : ℚ) - 1)).floor.toNat) 0))
  let var95Index := ((0.05 : ℚ) * (numPaths : ℚ)).floor.toNat
  let var99Index := ((0.01 : ℚ) * (numPaths : ℚ)).floor.toNat
  let var95 := initialPrice - sortedPrices.getD var95Index 0
  let var99 := initialPrice - sortedPrices.getD var99Index 0
  let expectedShortfall95 :=
    initialPrice - (sortedPrices.take (var95Index + 1)).sum / ((var95Index : ℚ) + 1)
  let expectedShortfall99 :=
    initialPrice - (sortedPrices.take (var99Index + 1)).sum / ((var99Index : ℚ) + 1)
  { paths := paths
    probabilities := probabilities
    histogram := histogram
    percentiles := percentiles
    var95 := var95
    var99 := var99
    expectedShortfall95 := expectedShortfall95
    expectedShortfall99 := expectedShortfall99
    currentVolatility := 0
    trend := 0
    drift := 0 }

/-- `BullBear` mirrors the `{ bull, bear }` record shape used inside
`RegimeAnalysis` in `src/types.ts`. -/
structure BullBear (α : Type) where
  bull : α
  bear : α
deriving Repr, DecidableEq

/-- `RegimeAnalysis` from `src/types.ts`.  The two volatility fields are
`Option ℚ` because their computation is the one place where JS produces a
non-finite value (see `jsDiv`). -/
structure RegimeAnalysis where
  bullMarketProbability : ℚ
  bearMarketProbability : ℚ
  regimeDuration : BullBear ℚ
  regimeVolatility : BullBear (Option ℚ)
  regimeReturns : BullBear ℚ
deriving Repr, DecidableEq

/-- Duration loop of `Analytics.analyzeRegime`: scans `regimes[1..]` with the
current run's label and length, pushing completed runs onto the bull/bear
lists, and pushes the final run at the end. -/
def regimeDurationsAux : ℚ → ℕ → List ℚ → List ℕ × List ℕ
  | current, dur, [] => if 0 < current then ([dur], []) else ([], [dur])
  | current, dur, r :: rest =>
    if r = current then regimeDurationsAux current (dur + 1) rest
    else
      let next := regimeDurationsAux r 1 rest
      if 0 < current then (dur :: next.1, next.2) else (next.1, dur :: next.2)

/-- Run-length extraction of `Analytics.analyzeRegime`.  For `[]` the JS loop
body never runs, `currentRegime` is `undefined`, `undefined > 0` is `false`,
and the final push appends the initial duration `1` to the bear list. -/
def regimeDurations : List ℚ → List ℕ × List ℕ
  | [] => ([], [1])
  | r :: rest => regimeDurationsAux r 1 rest

/-- `returns.filter((_, i) => regimes[i] > 0)` (the arrays have equal length at
every use site, so index pairing is a zip). -/
def bullReturnsOf (returns regimes : List ℚ) : List ℚ :=
  ((returns.zip regimes).filter (fun pr => decide (0 < pr.2))).map Prod.fst

/-- `returns.filter((_, i) => regimes[i] < 0)`. -/
def bearReturnsOf (returns regimes : List ℚ) : List ℚ :=
  ((returns.zip regimes).filter (fun pr => decide (pr.2 < 0))).map Prod.fst

/-- Per-regime sample standard deviation of `Analytics.analyzeRegime`:
`xs.length > 0 ? Math.sqrt(Σ (r - mean)² / (xs.length - 1)) : 0`.  With a
single member the numerator is `0` and the denominator `0`, so JS computes
`Math.sqrt(0/0) = NaN`, modelled by `none`. -/
def sampleVolOpt (R : RealOps) (xs : List ℚ) : Option ℚ :=
  if 0 < xs.length then
    let m := xs.sum / (xs.length : ℚ)
    (jsDiv ((xs.map (fun r => (r - m) ^ 2)).sum) ((xs.length : ℚ) - 1)).map R.sqrt
  else some 0

/-- `Analytics.analyzeRegime`. -/
def analyzeRegime (R : RealOps) (returns regimes : List ℚ) :
    Except String RegimeAnalysis :=
  if returns.length ≠ regimes.length then
    .error "Returns and regimes arrays must have the same length"
  else
    let bullCount := (regimes.filter (fun r => decide (0 < r))).length
    let bearCount := (regimes.filter (fun r => decide (r < 0))).length
    let totalCount := regimes.length
    let durations := regimeDurations regimes
    let bullReturns := bullReturnsOf returns regimes
    let bearReturns := bearReturnsOf returns regimes
    .ok
      { bullMarketProbability := (bullCount : ℚ) / (totalCount : ℚ)
        bearMarketProbability := (bearCount : ℚ) / (totalCount : ℚ)
        regimeDuration :=
          ⟨if 0 < durations.1.length then
              ((durations.1.map (fun d => (d : ℚ))).sum) / (durations.1.length : ℚ)
            else 0,
            if 0 < durations.2.length then
              ((durations.2.map (fun d => (d : ℚ))).sum) / (durations.2.length : ℚ)
            else 0⟩
        regimeVolatility := ⟨sampleVolOpt R bullReturns, sampleVolOpt R bearReturns⟩
        regimeReturns :=
          ⟨if 0 < bullReturns.length then bullReturns.sum / (bullReturns.length : ℚ) else 0,
            if 0 < bearReturns.length then bearReturns.sum / (bearReturns.length : ℚ) else 0⟩ }

/-- `dt = 1 / 252` in `runMonteCarloSimulation`. -/
def dt : ℚ := 1 / 252

/-- `Analytics.randomNormal`, Box-Muller over two uniform draws `u`, `v`:
`Math.sqrt(-2 * Math.log(u)) * Math.cos(2 * Math.PI * v)`. -/
def randomNormal (R : RealOps) (u v : ℚ) : ℚ :=
  R.sqrt (-2 * R.log u) * R.cos (2 * R.pi * v)

/-- Inner step loop of `runMonteCarloSimulation` for one path: given the number
of remaining steps, the next index `k` into the random stream, and the current
price and volatility, returns the generated prices (in order) and the next
unused stream index.  Each step consumes the two uniforms `rand k` and
`rand (k+1)`. -/
def simSteps (R : RealOps) (rand : ℕ → ℚ) (omega alpha beta drift : ℚ) :
    ℕ → ℕ → ℚ → ℚ → List ℚ × ℕ
  | 0, k, _, _ => ([], k)
  | steps + 1, k, price, vol =>
    let z := randomNormal R (rand k) (rand (k + 1))
    let ret := drift * dt - 0.5 * vol * vol * dt + vol * R.sqrt dt * z
    let price1 := price * R.exp ret
    let price2 := if price1 < MIN_PRICE then MIN_PRICE else price1
    let variance := omega + alpha * ret ^ 2 + beta * vol ^ 2
    let boundedVariance := max (min variance MAX_VARIANCE) MIN_VARIANCE
    let vol2 := R.sqrt boundedVariance
    let next := simSteps R rand omega alpha beta drift steps (k + 2) price2 vol2
    (price2 :: next.1, next.2)

/-- Outer path loop of `runMonteCarloSimulation`: builds the given number of
paths in order, threading the random stream index across paths (a single
global generator).  Every path starts at `initialPrice` and restarts the
price/volatility state. -/
def simPaths (R : RealOps) (rand : ℕ → ℚ)
    (omega alpha beta drift initialPrice initialVolatility : ℚ) (numSteps : ℕ) :
    ℕ → ℕ → List (List ℚ) × ℕ
  | 0, k => ([], k)
  | n + 1, k =>
    let stepRes := simSteps R rand omega alpha beta drift numSteps k initialPrice initialVolatility
    let rest := simPaths R rand omega alpha beta drift initialPrice initialVolatility numSteps n
      stepRes.2
    ((initialPrice :: stepRes.1) :: rest.1, rest.2)

/-- The `paths` array built by `runMonteCarloSimulation` before it hands over
to `calculateStatistics`, with `omega = initialVolatility² * (1 - α - β)`. -/
def simulatedPaths (R : RealOps) (rand : ℕ → ℚ) (initialPrice : ℚ)
    (params : AnalyticsParams) (initialVolatility drift : ℚ) : List (List ℚ) :=
  (simPaths R rand (initialVolatility * initialVolatility * (1 - params.alpha - params.beta))
    params.alpha params.beta drift initialPrice initialVolatility params.numSteps
    params.numPaths 0).1

/-- `Analytics.runMonteCarloSimulation`. -/
def runMonteCarloSimulation (R : RealOps) (rand : ℕ → ℚ) (initialPrice : ℚ)
    (params : AnalyticsParams) (initialVolatility drift : ℚ) :
    Except String AnalyticsResult :=
  match validateParams params with
  | .error e => .error e
  | .ok _ =>
    if initialPrice ≤ 0 then .error "Initial price must be positive"
    else if initialVolatility ≤ 0 then .error "Initial volatility must be positive"
    else
      .ok (calculateStatistics
        (simulatedPaths R rand initialPrice params initialVolatility drift) initialPrice)

/-! ### Concrete interpretations and inputs used by witnesses below -/

/-- A simple concrete `RealOps` interpretation for instantiating universally
quantified theorems (`sqrt 0 = 0` and monotone shapes agree with JS at the few
points the concrete runs below read). -/
def idOps : RealOps := ⟨fun x => 1 + x, id, id, id, 1⟩

/-- A concrete interpretation for concrete simulation runs: `exp r = 1 + r`,
`log` and `cos` the identity, `sqrt` constantly `1`, `pi = 1`. -/
def cexOps : RealOps := ⟨fun r => 1 + r, id, fun _ => 1, id, 1⟩

/-- A concrete random stream: the second uniform of the very first Box-Muller
draw is `1`, every other draw `0`, so the first path differs from the rest. -/
def cexRand : ℕ → ℚ := fun k => if k = 1 then 1 else 0

/-- Parameters at the documented bounds' interior, as in the repository's own
test pipeline: `alpha 0.1, beta 0.8, theta 0.05, switchProb 0.05, 100 paths,
10 steps`. -/
def testParams : AnalyticsParams := ⟨1/10, 8/10, 1/20, 1/20, 100, 10⟩

/-! ### Path-shape lemmas for the simulator -/

theorem simSteps_length (R : RealOps) (rand : ℕ → ℚ) (omega alpha beta drift : ℚ)
    (steps : ℕ) : ∀ k price vol,
    (simSteps R rand omega alpha beta drift steps k price vol).1.length = steps := by
  induction steps with
  | zero => intro k price vol; rfl
  | succ n ih => intro k price vol; simp only [simSteps, List.length_cons, ih]

theorem simSteps_mem_floor (R : RealOps) (rand : ℕ → ℚ) (omega alpha beta drift : ℚ)
    (steps : ℕ) : ∀ k price vol x,
    x ∈ (simSteps R rand omega alpha beta drift steps k price vol).1 → MIN_PRICE ≤ x := by
  induction steps with
  | zero => intro k price vol x hx; simp [simSteps] at hx
  | succ n ih =>
    intro k price vol x hx
    simp only [simSteps, List.mem_cons] at hx
    rcases hx with hx | hx
    · subst hx
      by_cases h : price * R.exp (drift * dt - 0.5 * vol * vol * dt
          + vol * R.sqrt dt * randomNormal R (rand k) (rand (k + 1))) < MIN_PRICE
      · simp [h]
      · simp only [if_neg h]
        exact le_of_not_lt h
    · exact ih _ _ _ _ hx

theorem simPaths_length (R : RealOps) (rand : ℕ → ℚ)
    (omega alpha beta drift initialPrice initialVolatility : ℚ) (numSteps : ℕ)
    (n : ℕ) : ∀ k,
    (simPaths R rand omega alpha beta drift initialPrice initialVolatility numSteps n k).1.length
      = n := by
  induction n with
  | zero => intro k; rfl
  | succ m ih => intro k; simp only [simPaths, List.length_cons, ih]

theorem simPaths_mem_shape (R : RealOps) (rand : ℕ → ℚ)
    (omega alpha beta drift initialPrice initialVolatility : ℚ) (numSteps : ℕ)
    (n : ℕ) : ∀ k path,
    path ∈ (simPaths R rand omega alpha beta drift initialPrice initialVolatility
        numSteps n k).1 →
      path.length = numSteps + 1 ∧ path.headD 0 = initialPrice
        ∧ ∀ x ∈ path.tail, MIN_PRICE ≤ x := by
  induction n with
  | zero => intro k path hp; simp [simPaths] at hp
  | succ m ih =>
    intro k path hp
    simp only [simPaths, List.mem_cons] at hp
    rcases hp with hp | hp
    · subst hp
      refine ⟨?_, rfl, ?_⟩
      · simp [List.length_cons, simSteps_length]
      · intro x hx
        exact simSteps_mem_floor R rand omega alpha beta drift numSteps _ _ _ x hx
    · exact ih _ path hp

theorem runMonteCarlo_ok (R : RealOps) (rand : ℕ → ℚ) (initialPrice : ℚ)
    (params : AnalyticsParams) (initialVolatility drift : ℚ)
    (hv : validateParams params = .ok ()) (hp : 0 < initialPrice)
    (hvol : 0 < initialVolatility) :
    runMonteCarloSimulation R rand initialPrice params initialVolatility drift
      = .ok (calculateStatistics
          (simulatedPaths R rand initialPrice params initialVolatility drift) initialPrice) := by
  unfold runMonteCarloSimulation
  rw [hv, if_neg (not_le.mpr hp), if_neg (not_le.mpr hvol)]

theorem calculateStatistics_paths (paths : List (List ℚ)) (initialPrice : ℚ) :
    (calculateStatistics paths initialPrice).paths = paths := rfl

/-- C1 (amended): for validated parameters, positive initial price and positive
initial volatility, the simulation returns `numPaths` paths of length
`numSteps + 1`, each starting at `initialPrice`; every element after the first
is at least `MIN_PRICE = 0.01`, and all elements are at least `0.01` whenever
`initialPrice` itself is (validation only requires `initialPrice > 0`, so the
first element may be below the floor). -/
theorem runMonteCarlo_paths_shape (R : RealOps) (rand : ℕ → ℚ) (initialPrice : ℚ)
    (params : AnalyticsParams) (initialVolatility drift : ℚ)
    (hv : validateParams params = .ok ()) (hp : 0 < initialPrice)
    (hvol : 0 < initialVolatility) :
    ∃ res, runMonteCarloSimulation R rand initialPrice params initialVolatility drift = .ok res
      ∧ res.paths.length = params.numPaths
      ∧ ∀ path ∈ res.paths,
          path.length = params.numSteps + 1 ∧ path.headD 0 = initialPrice
            ∧ (∀ x ∈ path.tail, MIN_PRICE ≤ x)
            ∧ (MIN_PRICE ≤ initialPrice → ∀ x ∈ path, MIN_PRICE ≤ x) := by
  refine ⟨_, runMonteCarlo_ok R rand initialPrice params initialVolatility drift hv hp hvol, ?_, ?_⟩
  · rw [calculateStatistics_paths]
    exact simPaths_length R rand _ params.alpha params.beta drift initialPrice initialVolatility
      params.numSteps params.numPaths 0
  · rw [calculateStatistics_paths]
    intro path hpath
    obtain ⟨hlen, hhead, htail⟩ := simPaths_mem_shape R rand _ params.alpha params.beta drift
      initialPrice initialVolatility params.numSteps params.numPaths 0 path hpath
    refine ⟨hlen, hhead, htail, ?_⟩
    intro hip x hx
    cases path with
    | nil => simp at hx
    | cons a t =>
      rcases List.mem_cons.mp hx with hx | hx
      · subst hx
        have ha : x = initialPrice := by simpa using hhead
        rw [ha]; exact hip
      · exact htail x hx

/-- C1 witness: the amended shape theorem instantiated at the repository's own
test-pipeline parameters (`100` paths, `10` steps, initial price `100`). -/
theorem runMonteCarlo_paths_shape_witness :
    ∃ res, runMonteCarloSimulation cexOps cexRand 100 testParams 1 0 = .ok res
      ∧ res.paths.length = testParams.numPaths
      ∧ ∀ path ∈ res.paths,
          path.length = testParams.numSteps + 1 ∧ path.headD 0 = (100 : ℚ)
            ∧ (∀ x ∈ path.tail, MIN_PRICE ≤ x)
            ∧ (MIN_PRICE ≤ (100 : ℚ) → ∀ x ∈ path, MIN_PRICE ≤ x) :=
  runMonteCarlo_paths_shape cexOps cexRand 100 testParams 1 0 rfl (by decide) (by decide)

set_option maxRecDepth 10000 in
/-- C1 counterexample: `initialPrice = 1/200` passes validation (`> 0` is the
only requirement), yet the first element of every returned path is `1/200`,
which is below the claimed floor `0.01`; so not every element of every path is
`≥ 0.01`. -/
theorem runMonteCarlo_first_element_below_floor :
    validateParams testParams = .ok ()
      ∧ (0 : ℚ) < 1 / 200 ∧ (0 : ℚ) < 1
      ∧ (runMonteCarloSimulation cexOps cexRand (1 / 200) testParams 1 0).toOption.map
          (fun res => (res.paths.getD 0 []).getD 0 0) = some (1 / 200)
      ∧ ¬ MIN_PRICE ≤ (1 / 200 : ℚ) :=
  ⟨rfl, by decide, by decide, by decide, by decide⟩

/-- C3 (confirmed): for every validated simulation input, the returned result
has `currentVolatility = 0`, `trend = 0` and `drift = 0`, no matter which
`initialVolatility` and `drift` were supplied: `calculateStatistics` fills
those fields with the literal `0` and `runMonteCarloSimulation` never
overwrites them. -/
theorem runMonteCarlo_constant_result_fields (R : RealOps) (rand : ℕ → ℚ)
    (initialPrice : ℚ) (params : AnalyticsParams) (initialVolatility drift : ℚ)
    (hv : validateParams params = .ok ()) (hp : 0 < initialPrice)
    (hvol : 0 < initialVolatility) :
    (runMonteCarloSimulation R rand initialPrice params initialVolatility drift).map
      (fun res => (res.currentVolatility, res.trend, res.drift)) = .ok (0, 0, 0) := by
  rw [runMonteCarlo_ok R rand initialPrice params initialVolatility drift hv hp hvol]
  rfl

/-- C3 witness. -/
theorem runMonteCarlo_constant_result_fields_witness :
    (runMonteCarloSimulation cexOps cexRand 100 testParams 1 0).map
      (fun res => (res.currentVolatility, res.trend, res.drift)) = .ok (0, 0, 0) :=
  runMonteCarlo_constant_result_fields cexOps cexRand 100 testParams 1 0 rfl
    (by decide) (by decide)

/-- C7 (confirmed): with the random source an explicit input stream, two runs
with identical arguments and pointwise identical streams produce identical
`AnalyticsResult` values. -/
theorem runMonteCarlo_deterministic (R : RealOps) (rand1 rand2 : ℕ → ℚ)
    (initialPrice : ℚ) (params : AnalyticsParams) (initialVolatility drift : ℚ)
    (h : ∀ i, rand1 i = rand2 i) :
    runMonteCarloSimulation R rand1 initialPrice params initialVolatility drift
      = runMonteCarloSimulation R rand2 initialPrice params initialVolatility drift := by
  have h2 : rand1 = rand2 := funext h
  rw [h2]

/-- C7 witness. -/
theorem runMonteCarlo_deterministic_witness :
    runMonteCarloSimulation cexOps cexRand 100 testParams 1 0
      = runMonteCarloSimulation cexOps cexRand 100 testParams 1 0 :=
  runMonteCarlo_deterministic cexOps cexRand cexRand 100 testParams 1 0 (fun _ => rfl)

/-- C6 (confirmed): for a non-empty returns list, `calculateGARCHVolatility`
errors exactly when `alpha ∉ [0,1]`, `beta ∉ [0,1]` or `alpha + beta ≥ 1`
(the source's test `alpha < 0 ∨ beta < 0 ∨ alpha + beta ≥ 1` is equivalent),
and returns normally for `alpha, beta ∈ [0,1]` with `alpha + beta < 1`. -/
theorem calculateGARCHVolatility_validation (R : RealOps) (returns : List ℚ)
    (a b : ℚ) (hne : returns ≠ []) :
    (calculateGARCHVolatility R returns a b).isOk = true
      ↔ (0 ≤ a ∧ a ≤ 1 ∧ 0 ≤ b ∧ b ≤ 1 ∧ a + b < 1) := by
  unfold calculateGARCHVolatility
  rw [if_neg (by simpa using hne)]
  by_cases hbad : a < 0 ∨ b < 0 ∨ 1 ≤ a + b
  · rw [if_pos hbad]
    constructor
    · intro h; cases h
    · rintro ⟨h0a, h1a, h0b, h1b, hab⟩
      exfalso
      rcases hbad with h | h | h <;> linarith
  · rw [if_neg hbad]
    push_neg at hbad
    obtain ⟨h0a, h0b, hab⟩ := hbad
    constructor
    · intro _
      exact ⟨h0a, by linarith, h0b, by linarith, hab⟩
    · intro _
      split <;> rfl

/-- C6 witness. -/
theorem calculateGARCHVolatility_validation_witness :
    (calculateGARCHVolatility idOps [1/100] (1/10) (8/10)).isOk = true :=
  (calculateGARCHVolatility_validation idOps [1/100] (1/10) (8/10) (by decide)).mpr
    (by norm_num)

/-- In a list whose entries are all `+1` or `-1`, the strictly positive and
strictly negative entries together account for every entry. -/
theorem count_pos_add_count_neg (regimes : List ℚ)
    (hlab : ∀ r ∈ regimes, r = 1 ∨ r = -1) :
    (regimes.filter (fun r => decide (0 < r))).length
      + (regimes.filter (fun r => decide (r < 0))).length = regimes.length := by
  induction regimes with
  | nil => rfl
  | cons a t ih =>
    have ht : ∀ r ∈ t, r = 1 ∨ r = -1 := fun r hr => hlab r (List.mem_cons_of_mem a hr)
    have hsum := ih ht
    rcases hlab a (List.mem_cons_self a t) with ha | ha <;> subst ha <;>
      simp [List.filter_cons, show (decide ((0:ℚ) < 1)) = true from by decide,
        show (decide ((1:ℚ) < 0)) = false from by decide,
        show (decide ((0:ℚ) < -1)) = false from by decide,
        show (decide ((-1:ℚ) < 0)) = true from by decide] <;> omega

/-- C8 (confirmed): for equal-length inputs with a non-empty `±1` regime
array, the bull and bear market probabilities returned by `analyzeRegime` sum
to exactly `1`. -/
theorem analyzeRegime_prob_sum (R : RealOps) (returns regimes : List ℚ)
    (hlen : returns.length = regimes.length) (hne : regimes ≠ [])
    (hlab : ∀ r ∈ regimes, r = 1 ∨ r = -1) :
    (analyzeRegime R returns regimes).map
      (fun res => res.bullMarketProbability + res.bearMarketProbability) = .ok 1 := by
  unfold analyzeRegime
  rw [if_neg (by simp [hlen])]
  simp only [Except.map, Except.ok.injEq]
  have htot : (0 : ℚ) < (regimes.length : ℚ) := by
    have : 0 < regimes.length := List.length_pos.mpr hne
    exact_mod_cast this
  rw [div_add_div_same, ← Nat.cast_add, count_pos_add_count_neg regimes hlab]
  exact div_self (ne_of_gt htot)

/-- C8 witness. -/
theorem analyzeRegime_prob_sum_witness :
    (analyzeRegime idOps [1/2, -1/3] [1, -1]).map
      (fun res => res.bullMarketProbability + res.bearMarketProbability) = .ok 1 :=
  analyzeRegime_prob_sum idOps [1/2, -1/3] [1, -1] rfl (by decide) (by decide)

/-- With exactly one member, the sample standard deviation of
`analyzeRegime` divides by `length - 1 = 0`, so JS produces `NaN`
(`none` in the model), whatever `sqrt` interpretation is supplied. -/
theorem sampleVolOpt_singleton (R : RealOps) (xs : List ℚ) (h : xs.length = 1) :
    sampleVolOpt R xs = none := by
  obtain ⟨x, rfl⟩ := List.length_eq_one.mp h
  simp [sampleVolOpt, jsDiv]

/-- With no members, the `: 0` branch of the ternary is taken literally. -/
theorem sampleVolOpt_nil (R : RealOps) : sampleVolOpt R [] = some 0 := rfl

/-- C10 (amended): in `analyzeRegime`, a regime with exactly one member gets a
non-finite (`NaN`) volatility — the `(length - 1)` divisor is `0` — and a
regime with zero members gets the literal `0` of the fallback branch.  (A
regime with two or more identical returns can also return `0`, so zero-member
regimes are not the only source of a `0` volatility; see the counterexample.) -/
theorem analyzeRegime_single_member_vol (R : RealOps) (returns regimes : List ℚ)
    (hlen : returns.length = regimes.length) :
    ((bullReturnsOf returns regimes).length = 1 →
        (analyzeRegime R returns regimes).map (fun res => res.regimeVolatility.bull)
          = .ok none)
      ∧ ((bullReturnsOf returns regimes).length = 0 →
        (analyzeRegime R returns regimes).map (fun res => res.regimeVolatility.bull)
          = .ok (some 0))
      ∧ ((bearReturnsOf returns regimes).length = 1 →
        (analyzeRegime R returns regimes).map (fun res => res.regimeVolatility.bear)
          = .ok none)
      ∧ ((bearReturnsOf returns regimes).length = 0 →
        (analyzeRegime R returns regimes).map (fun res => res.regimeVolatility.bear)
          = .ok (some 0)) := by
  unfold analyzeRegime
  rw [if_neg (by simp [hlen])]
  refine ⟨?_, ?_, ?_, ?_⟩
  · intro h1
    simp only [Except.map, sampleVolOpt_singleton R _ h1]
  · intro h0
    rw [List.length_eq_zero] at h0
    simp only [Except.map, h0, sampleVolOpt_nil]
  · intro h1
    simp only [Except.map, sampleVolOpt_singleton R _ h1]
  · intro h0
    rw [List.length_eq_zero] at h0
    simp only [Except.map, h0, sampleVolOpt_nil]

/-- C10 witness: one bull member gives `NaN` (`none`), zero bear members give
the literal `0`. -/
theorem analyzeRegime_single_member_vol_witness :
    (analyzeRegime idOps [1/5] [1]).map (fun res => res.regimeVolatility.bull) = .ok none
      ∧ (analyzeRegime idOps [1/5] [1]).map (fun res => res.regimeVolatility.bear)
          = .ok (some 0) :=
  ⟨(analyzeRegime_single_member_vol idOps [1/5] [1] rfl).1 (by decide),
    (analyzeRegime_single_member_vol idOps [1/5] [1] rfl).2.2.2 (by decide)⟩

/-- C10 counterexample: a bull regime with two members whose returns are equal
also gets volatility `0` (`Math.sqrt(0 / 1) = 0`), so a zero-member regime is
not the only case that yields `0`.  `idOps.sqrt 0 = 0` matches JS `Math.sqrt`
at the one point read. -/
theorem analyzeRegime_zero_vol_two_members :
    (bullReturnsOf [1/100, 1/100] [1, 1]).length = 2
      ∧ (analyzeRegime idOps [1/100, 1/100] [1, 1]).toOption.map
          (fun res => res.regimeVolatility.bull) = some (some 0)
      ∧ idOps.sqrt 0 = 0 :=
  ⟨by decide, by decide, rfl⟩

/-- When every close the loop actually checks (`prev` and all but the last of
`rest`) is positive, `calculateReturnsAux` succeeds with the log-ratios of
consecutive closes. -/
theorem calculateReturnsAux_ok (R : RealOps) (rest : List PricePoint) : ∀ prev : ℚ,
    (∀ i < rest.length, 0 < ((prev :: rest.map PricePoint.close).getD i 0)) →
    calculateReturnsAux R prev rest
      = .ok (List.zipWith (fun a b => R.log (b / a))
          (prev :: rest.map PricePoint.close) (rest.map PricePoint.close)) := by
  induction rest with
  | nil => intro prev _; rfl
  | cons q t ih =>
    intro prev h
    have h0 : 0 < prev := by simpa using h 0 (by simp)
    have harg : ∀ i < t.length, 0 < ((q.close :: t.map PricePoint.close).getD i 0) := by
      intro i hi
      have := h (i + 1) (by simpa using Nat.succ_lt_succ hi)
      simpa using this
    unfold calculateReturnsAux
    rw [if_neg (not_le.mpr h0), ih q.close harg]
    rfl

theorem calculateReturnsAux_isOk (R : RealOps) (rest : List PricePoint) : ∀ prev : ℚ,
    (calculateReturnsAux R prev rest).isOk = true →
    ∀ i < rest.length, 0 < ((prev :: rest.map PricePoint.close).getD i 0) := by
  induction rest with
  | nil => intro prev _ i hi; simp at hi
  | cons q t ih =>
    intro prev h i hi
    unfold calculateReturnsAux at h
    by_cases h0 : prev ≤ 0
    · rw [if_pos h0] at h; simp [Except.isOk, Except.toBool] at h
    · rw [if_neg h0] at h
      cases hq : calculateReturnsAux R q.close t with
      | error e => rw [hq] at h; simp [Except.isOk, Except.toBool] at h
      | ok rs =>
        have hih := ih q.close (by rw [hq]; rfl)
        match i, hi with
        | 0, _ => simpa using not_le.mp h0
        | j + 1, hj =>
          have := hih j (by simpa using Nat.lt_of_succ_lt_succ hj)
          simpa using this

theorem calculateReturnsAux_length (R : RealOps) (rest : List PricePoint) : ∀ prev rs,
    calculateReturnsAux R prev rest = .ok rs → rs.length = rest.length := by
  induction rest with
  | nil =>
    intro prev rs h
    have h2 : ([] : List ℚ) = rs := by simpa [calculateReturnsAux] using h
    simp [← h2]
  | cons q t ih =>
    intro prev rs h
    unfold calculateReturnsAux at h
    by_cases h0 : prev ≤ 0
    · rw [if_pos h0] at h; cases h
    · rw [if_neg h0] at h
      cases hq : calculateReturnsAux R q.close t with
      | error e => rw [hq] at h; cases h
      | ok rs2 =>
        rw [hq] at h
        cases h
        simp [ih q.close rs2 hq]

/-- C2 (amended): `calculateReturns` succeeds exactly when there are at least
two price points and every close except the last one is positive — the loop
only ever checks `prices[i-1].close`, so a non-positive final close is
accepted; on success it returns the log-ratios
`log(close_t / close_(t-1))`, which has length `prices.length - 1`. -/
theorem calculateReturns_spec (R : RealOps) (prices : List PricePoint) :
    ((calculateReturns R prices).isOk = true
        ↔ 2 ≤ prices.length
            ∧ ∀ i < prices.length - 1, 0 < (prices.map PricePoint.close).getD i 0)
      ∧ (2 ≤ prices.length →
          (∀ i < prices.length - 1, 0 < (prices.map PricePoint.close).getD i 0) →
          calculateReturns R prices
            = .ok (List.zipWith (fun a b => R.log (b / a))
                (prices.map PricePoint.close) ((prices.map PricePoint.close).tail)))
      ∧ ∀ rs, calculateReturns R prices = .ok rs → rs.length = prices.length - 1 := by
  match prices with
  | [] =>
    refine ⟨?_, ?_, ?_⟩
    · simp [calculateReturns, Except.isOk, Except.toBool]
    · intro h; exact absurd h (by norm_num)
    · intro rs h; cases h
  | [p] =>
    refine ⟨?_, ?_, ?_⟩
    · simp [calculateReturns, Except.isOk, Except.toBool]
    · intro h; exact absurd h (by norm_num)
    · intro rs h; cases h
  | p :: q :: rest =>
    refine ⟨⟨?_, ?_⟩, ?_, ?_⟩
    · intro h
      refine ⟨by simp, ?_⟩
      intro i hi
      have := calculateReturnsAux_isOk R (q :: rest) p.close h i (by simpa using hi)
      simpa using this
    · rintro ⟨-, hpos⟩
      have harg : ∀ i < (q :: rest).length,
          0 < ((p.close :: (q :: rest).map PricePoint.close).getD i 0) := by
        intro i hi
        have := hpos i (by simpa using hi)
        simpa using this
      show (calculateReturnsAux R p.close (q :: rest)).isOk = true
      rw [calculateReturnsAux_ok R (q :: rest) p.close harg]
      rfl
    · intro _ hpos
      have harg : ∀ i < (q :: rest).length,
          0 < ((p.close :: (q :: rest).map PricePoint.close).getD i 0) := by
        intro i hi
        have := hpos i (by simpa using hi)
        simpa using this
      show calculateReturnsAux R p.close (q :: rest) = _
      rw [calculateReturnsAux_ok R (q :: rest) p.close harg]
      rfl
    · intro rs h
      have := calculateReturnsAux_length R (q :: rest) p.close rs h
      simpa using this

/-- C2 witness: two positive closes give the single log-return. -/
theorem calculateReturns_spec_witness :
    calculateReturns idOps [⟨0, 1, 1, 1, 1, 1⟩, ⟨1, 2, 2, 2, 2, 1⟩]
      = .ok [idOps.log (2 / 1)] :=
  (calculateReturns_spec idOps [⟨0, 1, 1, 1, 1, 1⟩, ⟨1, 2, 2, 2, 2, 1⟩]).2.1
    (by decide) (by decide)

/-- C2 counterexample: the final close is `-1 ≤ 0`, yet `calculateReturns`
succeeds — the loop never checks `prices[prices.length - 1].close`, so the
claim "errors when any close ≤ 0" is false as stated. -/
theorem calculateReturns_skips_last_close :
    (([⟨0, 1, 1, 1, 1, 1⟩, ⟨1, 1, 1, 1, -1, 1⟩] : List PricePoint).length = 2)
      ∧ ((⟨1, 1, 1, 1, -1, 1⟩ : PricePoint).close ≤ 0)
      ∧ (calculateReturns idOps [⟨0, 1, 1, 1, 1, 1⟩, ⟨1, 1, 1, 1, -1, 1⟩]).isOk = true :=
  ⟨rfl, by decide, by decide⟩

/-! ### Sorting lemmas for the statistics aggregator -/

theorem sortedTerminal_perm (paths : List (List ℚ)) :
    (sortedTerminal paths).Perm (finalPricesOf paths) :=
  List.perm_insertionSort _ _

theorem sortedTerminal_sorted (paths : List (List ℚ)) :
    (sortedTerminal paths).Sorted (· ≤ ·) :=
  List.sorted_insertionSort _ _

/-- Ascending sorting of a rational list is unique, so the engine's sorted
array equals any sorted permutation of the terminal prices. -/
theorem sortedTerminal_eq (paths : List (List ℚ)) (s : List ℚ)
    (hperm : s.Perm (finalPricesOf paths)) (hsort : s.Sorted (· ≤ ·)) :
    sortedTerminal paths = s :=
  List.eq_of_perm_of_sorted ((sortedTerminal_perm paths).trans hperm.symm)
    (sortedTerminal_sorted paths) hsort

/-- `Rat.floor` agrees with the floor of the `FloorRing` instance. -/
theorem ratFloor_eq (q : ℚ) : q.floor = ⌊q⌋ := rfl

/-- C5 (confirmed): with `s` the ascending-sorted terminal prices,
`var95 = initialPrice - s[⌊0.05·numPaths⌋]`,
`var99 = initialPrice - s[⌊0.01·numPaths⌋]`, and each expected shortfall is
`initialPrice` minus the mean of `s[0..=varIndex]` — all anchored to
`initialPrice`. -/
theorem calculateStatistics_var_es_spec (paths : List (List ℚ)) (initialPrice : ℚ)
    (s : List ℚ) (hperm : s.Perm (finalPricesOf paths)) (hsort : s.Sorted (· ≤ ·)) :
    (calculateStatistics paths initialPrice).var95
        = initialPrice - s.getD (((0.05 : ℚ) * (paths.length : ℚ)).floor.toNat) 0
      ∧ (calculateStatistics paths initialPrice).var99
        = initialPrice - s.getD (((0.01 : ℚ) * (paths.length : ℚ)).floor.toNat) 0
      ∧ (calculateStatistics paths initialPrice).expectedShortfall95
        = initialPrice - (s.take ((((0.05 : ℚ) * (paths.length : ℚ)).floor.toNat) + 1)).sum
            / (((((0.05 : ℚ) * (paths.length : ℚ)).floor.toNat) : ℚ) + 1)
      ∧ (calculateStatistics paths initialPrice).expectedShortfall99
        = initialPrice - (s.take ((((0.01 : ℚ) * (paths.length : ℚ)).floor.toNat) + 1)).sum
            / (((((0.01 : ℚ) * (paths.length : ℚ)).floor.toNat) : ℚ) + 1) := by
  have hs : sortedTerminal paths = s := sortedTerminal_eq paths s hperm hsort
  refine ⟨?_, ?_, ?_, ?_⟩ <;> simp [calculateStatistics, hs]

/-- C5 witness. -/
theorem calculateStatistics_var_es_spec_witness :
    (calculateStatistics [[2], [1], [3]] 10).var95
        = 10 - ([1, 2, 3] : List ℚ).getD (((0.05 : ℚ) * ((3 : ℕ) : ℚ)).floor.toNat) 0
      ∧ (calculateStatistics [[2], [1], [3]] 10).var99
        = 10 - ([1, 2, 3] : List ℚ).getD (((0.01 : ℚ) * ((3 : ℕ) : ℚ)).floor.toNat) 0
      ∧ (calculateStatistics [[2], [1], [3]] 10).expectedShortfall95
        = 10 - (([1, 2, 3] : List ℚ).take ((((0.05 : ℚ) * ((3 : ℕ) : ℚ)).floor.toNat) + 1)).sum
            / (((((0.05 : ℚ) * ((3 : ℕ) : ℚ)).floor.toNat) : ℚ) + 1)
      ∧ (calculateStatistics [[2], [1], [3]] 10).expectedShortfall99
        = 10 - (([1, 2, 3] : List ℚ).take ((((0.01 : ℚ) * ((3 : ℕ) : ℚ)).floor.toNat) + 1)).sum
            / (((((0.01 : ℚ) * ((3 : ℕ) : ℚ)).floor.toNat) : ℚ) + 1) :=
  calculateStatistics_var_es_spec [[2], [1], [3]] 10 [1, 2, 3] (by decide) (by decide)

/-- On an ascending-sorted list, `getD` (default `0`) is monotone over valid
indices. -/
theorem sorted_getD_mono (s : List ℚ) (hsort : s.Sorted (· ≤ ·)) (i j : ℕ)
    (hij : i ≤ j) (hj : j < s.length) : s.getD i 0 ≤ s.getD j 0 := by
  have hi : i < s.length := lt_of_le_of_lt hij hj
  rw [List.getD_eq_getElem s 0 hi, List.getD_eq_getElem s 0 hj]
  exact List.Sorted.rel_get_of_le hsort (show (⟨i, hi⟩ : Fin s.length) ≤ ⟨j, hj⟩ from hij)

/-- The nearest-rank index `⌊p/100 · (n-1)⌋` is monotone in the level `p` and
stays below `n` for levels up to `100`. -/
theorem rankIndex_mono (n : ℕ) (p q : ℕ) (hpq : p ≤ q) (hn : 1 ≤ n) :
    ((p : ℚ) / 100 * ((n : ℚ) - 1)).floor.toNat
      ≤ ((q : ℚ) / 100 * ((n : ℚ) - 1)).floor.toNat := by
  rw [ratFloor_eq, ratFloor_eq]
  have hfac : (0 : ℚ) ≤ (n : ℚ) - 1 := by
    have : (1 : ℚ) ≤ (n : ℚ) := by exact_mod_cast hn
    linarith
  have hle : (p : ℚ) / 100 * ((n : ℚ) - 1) ≤ (q : ℚ) / 100 * ((n : ℚ) - 1) := by
    apply mul_le_mul_of_nonneg_right _ hfac
    apply div_le_div_of_nonneg_right ?_ ?_
    · exact_mod_cast hpq
    · norm_num
  exact Int.toNat_le_toNat (Int.floor_le_floor hle)

theorem rankIndex_lt (n : ℕ) (p : ℕ) (hp : p ≤ 100) (hn : 1 ≤ n) :
    ((p : ℚ) / 100 * ((n : ℚ) - 1)).floor.toNat < n := by
  rw [ratFloor_eq]
  have h1 : (p : ℚ) / 100 ≤ 1 := by
    rw [div_le_one (by norm_num : (0:ℚ) < 100)]
    exact_mod_cast hp
  have hfac : (0 : ℚ) ≤ (n : ℚ) - 1 := by
    have : (1 : ℚ) ≤ (n : ℚ) := by exact_mod_cast hn
    linarith
  have hle : (p : ℚ) / 100 * ((n : ℚ) - 1) ≤ (n : ℚ) - 1 := by
    calc (p : ℚ) / 100 * ((n : ℚ) - 1) ≤ 1 * ((n : ℚ) - 1) :=
          mul_le_mul_of_nonneg_right h1 hfac
      _ = (n : ℚ) - 1 := one_mul _
  have hfl : ⌊(p : ℚ) / 100 * ((n : ℚ) - 1)⌋ ≤ (n : ℤ) - 1 := by
    have := Int.floor_le_floor hle
    have h2 : ⌊(n : ℚ) - 1⌋ = (n : ℤ) - 1 := by
      rw [show ((n : ℚ) - 1) = ((n : ℤ) - 1 : ℤ) by push_cast; ring]
      exact Int.floor_intCast _
    omega
  have hn1 : (0 : ℤ) < n := by exact_mod_cast hn
  omega

/-- C9 (confirmed): each percentile level `p ∈ {5,10,25,50,75,90,95}` maps to
the ascending-sorted terminal price at nearest-rank index
`⌊p/100 · (numPaths - 1)⌋` (no interpolation), and the resulting values are
non-decreasing in the level. -/
theorem calculateStatistics_percentiles_spec (paths : List (List ℚ)) (initialPrice : ℚ)
    (s : List ℚ) (hperm : s.Perm (finalPricesOf paths)) (hsort : s.Sorted (· ≤ ·))
    (hne : paths ≠ []) :
    (calculateStatistics paths initialPrice).percentiles
        = percentileLevels.map (fun (p : ℕ) =>
            (p, s.getD (((p : ℚ) / 100 * ((paths.length : ℚ) - 1)).floor.toNat) 0))
      ∧ ((calculateStatistics paths initialPrice).percentiles.map Prod.snd).Sorted (· ≤ ·) := by
  have hs : sortedTerminal paths = s := sortedTerminal_eq paths s hperm hsort
  have heq : (calculateStatistics paths initialPrice).percentiles
      = percentileLevels.map (fun (p : ℕ) =>
          (p, s.getD (((p : ℚ) / 100 * ((paths.length : ℚ) - 1)).floor.toNat) 0)) := by
    simp [calculateStatistics, hs]
  have hslen : s.length = paths.length := by
    rw [hperm.length_eq]
    simp [finalPricesOf]
  have hn : 1 ≤ paths.length := List.length_pos.mpr hne
  refine ⟨heq, ?_⟩
  rw [heq, List.map_map]
  rw [List.Sorted, List.pairwise_map]
  have hbase : percentileLevels.Pairwise (· ≤ ·) := by decide
  refine hbase.imp_of_mem ?_
  intro p q hp hq hpq
  have hq100 : q ≤ 100 := by
    fin_cases hq <;> norm_num
  simp only [Function.comp]
  exact sorted_getD_mono s hsort _ _
    (rankIndex_mono paths.length p q hpq hn)
    (by rw [hslen]; exact rankIndex_lt paths.length q hq100 hn)

/-- C9 witness. -/
theorem calculateStatistics_percentiles_spec_witness :
    (calculateStatistics [[2], [1], [3]] 1).percentiles
        = percentileLevels.map (fun (p : ℕ) =>
            (p, ([1, 2, 3] : List ℚ).getD
              (((p : ℚ) / 100 * ((([[2], [1], [3]] : List (List ℚ)).length : ℚ) - 1)).floor.toNat) 0))
      ∧ (((calculateStatistics [[2], [1], [3]] 1).percentiles.map Prod.snd).Sorted (· ≤ ·)) :=
  calculateStatistics_percentiles_spec [[2], [1], [3]] 1 [1, 2, 3]
    (by decide) (by decide) (by decide)

/-! ### Histogram lemmas -/

theorem bumpBin_length (h : List HistogramBin) : ∀ i, (bumpBin h i).length = h.length := by
  induction h with
  | nil => intro i; rfl
  | cons b bs ih =>
    intro i
    cases i with
    | zero => rfl
    | succ j => simp [bumpBin, ih j]

theorem bumpBin_map_bin (h : List HistogramBin) : ∀ i,
    (bumpBin h i).map HistogramBin.bin = h.map HistogramBin.bin := by
  induction h with
  | nil => intro i; rfl
  | cons b bs ih =>
    intro i
    cases i with
    | zero => rfl
    | succ j => simp [bumpBin, ih j]

theorem bumpBin_count_sum (h : List HistogramBin) : ∀ i, i < h.length →
    ((bumpBin h i).map HistogramBin.count).sum = (h.map HistogramBin.count).sum + 1 := by
  induction h with
  | nil => intro i hi; simp at hi
  | cons b bs ih =>
    intro i hi
    cases i with
    | zero => simp [bumpBin]; omega
    | succ j =>
      have := ih j (by simpa using Nat.lt_of_succ_lt_succ hi)
      simp [bumpBin, this]
      omega

theorem foldl_bump_length (prices : List ℚ) (f : ℚ → ℕ) : ∀ h : List HistogramBin,
    (prices.foldl (fun acc price => bumpBin acc (f price)) h).length = h.length := by
  induction prices with
  | nil => intro h; rfl
  | cons p t ih =>
    intro h
    rw [List.foldl_cons, ih (bumpBin h (f p)), bumpBin_length]

theorem foldl_bump_map_bin (prices : List ℚ) (f : ℚ → ℕ) : ∀ h : List HistogramBin,
    (prices.foldl (fun acc price => bumpBin acc (f price)) h).map HistogramBin.bin
      = h.map HistogramBin.bin := by
  induction prices with
  | nil => intro h; rfl
  | cons p t ih =>
    intro h
    rw [List.foldl_cons, ih (bumpBin h (f p)), bumpBin_map_bin]

theorem foldl_bump_count_sum (prices : List ℚ) (f : ℚ → ℕ) : ∀ h : List HistogramBin,
    (∀ price ∈ prices, f price < h.length) →
    ((prices.foldl (fun acc price => bumpBin acc (f price)) h).map HistogramBin.count).sum
      = (h.map HistogramBin.count).sum + prices.length := by
  induction prices with
  | nil => intro h _; simp
  | cons p t ih =>
    intro h hf
    have h1 : f p < h.length := hf p (List.mem_cons_self p t)
    rw [List.foldl_cons,
      ih (bumpBin h (f p)) (fun price hpr => by
        rw [bumpBin_length]; exact hf price (List.mem_cons_of_mem p hpr)),
      bumpBin_count_sum h (f p) h1, List.length_cons]
    omega

/-- The engine's histogram, written with the top-level helpers: the fold of
`bumpBin` over the terminal prices, starting from the 50 zero-count bins. -/
theorem calculateStatistics_histogram_def (paths : List (List ℚ)) (initialPrice : ℚ) :
    (calculateStatistics paths initialPrice).histogram
      = (finalPricesOf paths).foldl
          (fun h price => bumpBin h (binIndexOf (histMin paths) (binSizeOf paths) price))
          ((List.range 50).map
            (fun (i : ℕ) => HistogramBin.mk (histMin paths + (i : ℚ) * binSizeOf paths) 0)) := rfl

/-- C4 (confirmed): whenever the terminal prices are not all equal (JS divides
by the bin width, so `min < max` is the well-defined regime), the histogram of
a simulation result has exactly 50 bins, whose left edges march from `min` in
equal steps of `(max - min)/50`, whose counts sum to `numPaths`, and whose
last bin (index 49) is the one that tallies the maximum terminal price. -/
theorem runMonteCarlo_histogram_spec (R : RealOps) (rand : ℕ → ℚ) (initialPrice : ℚ)
    (params : AnalyticsParams) (initialVolatility drift : ℚ)
    (spaths : List (List ℚ))
    (hsp : spaths = simulatedPaths R rand initialPrice params initialVolatility drift)
    (hv : validateParams params = .ok ()) (hp : 0 < initialPrice)
    (hvol : 0 < initialVolatility)
    (hdist : histMin spaths < histMax spaths) :
    (runMonteCarloSimulation R rand initialPrice params initialVolatility drift).map
        (fun res => (res.histogram.length, res.histogram.map HistogramBin.bin,
          (res.histogram.map HistogramBin.count).sum))
      = .ok (50,
          (List.range 50).map (fun (i : ℕ) => histMin spaths + (i : ℚ) * binSizeOf spaths),
          params.numPaths)
      ∧ binIndexOf (histMin spaths) (binSizeOf spaths) (histMax spaths) = 49 := by
  subst hsp
  set sp := simulatedPaths R rand initialPrice params initialVolatility drift with hsp
  constructor
  · rw [runMonteCarlo_ok R rand initialPrice params initialVolatility drift hv hp hvol]
    simp only [Except.map, Except.ok.injEq]
    rw [calculateStatistics_histogram_def]
    have hbound : ∀ price ∈ finalPricesOf sp,
        binIndexOf (histMin sp) (binSizeOf sp) price
          < ((List.range 50).map
              (fun (i : ℕ) => HistogramBin.mk (histMin sp + (i : ℚ) * binSizeOf sp) 0)).length := by
      intro price _
      have h49 : binIndexOf (histMin sp) (binSizeOf sp) price ≤ 49 := Nat.min_le_right _ _
      simp only [List.length_map, List.length_range]
      omega
    have hz : ((((List.range 50).map
        (fun (i : ℕ) => HistogramBin.mk (histMin sp + (i : ℚ) * binSizeOf sp) 0))).map
          HistogramBin.count).sum = 0 := by
      apply List.sum_eq_zero
      intro x hx
      rw [List.map_map] at hx
      obtain ⟨i, -, hix⟩ := List.mem_map.mp hx
      exact hix.symm
    have hlen : (finalPricesOf sp).length = params.numPaths := by
      rw [hsp]
      simp [finalPricesOf, simulatedPaths, simPaths_length]
    simp only [Prod.mk.injEq]
    refine ⟨?_, ?_, ?_⟩
    · rw [foldl_bump_length (finalPricesOf sp) (binIndexOf (histMin sp) (binSizeOf sp))]
      simp
    · rw [foldl_bump_map_bin (finalPricesOf sp) (binIndexOf (histMin sp) (binSizeOf sp))]
      simp [List.map_map, Function.comp]
    · rw [foldl_bump_count_sum (finalPricesOf sp) (binIndexOf (histMin sp) (binSizeOf sp))
        _ hbound, hz, hlen]
      exact Nat.zero_add _
  · unfold binIndexOf
    have hsub : (0 : ℚ) < histMax sp - histMin sp := sub_pos.mpr hdist
    have h50 : (histMax sp - histMin sp) / binSizeOf sp = 50 := by
      unfold binSizeOf
      rw [div_div_eq_mul_div, mul_comm, mul_div_assoc, div_self (ne_of_gt hsub), mul_one]
    rw [h50, ratFloor_eq]
    norm_num

set_option maxRecDepth 10000 in
/-- C4 witness: the concrete 100-path run (initial price `100`) has two
distinct terminal values, so the nondegeneracy hypothesis holds and the
histogram facts follow. -/
theorem runMonteCarlo_histogram_spec_witness :
    (runMonteCarloSimulation cexOps cexRand 100 testParams 1 0).map
        (fun res => (res.histogram.length, res.histogram.map HistogramBin.bin,
          (res.histogram.map HistogramBin.count).sum))
      = .ok (50,
          (List.range 50).map (fun (i : ℕ) =>
            histMin (simulatedPaths cexOps cexRand 100 testParams 1 0)
              + (i : ℚ) * binSizeOf (simulatedPaths cexOps cexRand 100 testParams 1 0)),
          testParams.numPaths)
      ∧ binIndexOf (histMin (simulatedPaths cexOps cexRand 100 testParams 1 0))
          (binSizeOf (simulatedPaths cexOps cexRand 100 testParams 1 0))
          (histMax (simulatedPaths cexOps cexRand 100 testParams 1 0)) = 49 :=
  runMonteCarlo_histogram_spec cexOps cexRand 100 testParams 1 0
    (simulatedPaths cexOps cexRand 100 testParams 1 0) rfl rfl (by decide) (by decide)
    (by decide)
